import Mathlib

/-!
Verification of the mcp-obsidian vault-access client and its complex query
evaluator. The repository ships two source files: the tool layer
(fast_tools.py) and the entry point (server.py). The vault client module
(obsidian.py), holding the Obsidian class with search_json and the query
Runner/Evaluator the specification describes as the core, is not part of the
provided sources; those components are modelled from the specification, as
marked on each definition. The tool layer definitions (obsidian_delete_file,
obsidian_simple_search, obsidian_complex_search) are embedded directly from
fast_tools.py.
-/

namespace McpObsidian

/-- Modelled from the spec: the value domain of the evaluator, one of
boolean, number, string, null (spec section 4.1). Numbers are modelled as
integers, which covers every numeric value the claims exercise. -/
inductive Value where
| null : Value
| bool (b : Bool) : Value
| num (n : Int) : Value
| str (s : String) : Value
deriving DecidableEq, Repr

/-- Modelled from the spec: FileRecord, the per-file record
with the only two fields addressable via var (spec section 3). -/
structure FileRecord where
path : String
content : String
deriving DecidableEq, Repr

/-- Modelled from the spec: QueryExpression, a recursive variant type with
leaf forms Literal and VarRef and internal form Operator (spec section 3).
A VarRef carries its optional declared default value. -/
inductive QueryExpression where
| lit (v : Value) : QueryExpression
| varRef (name : String) (dflt : Option Value) : QueryExpression
| op (name : String) (args : List QueryExpression) : QueryExpression

/-- Modelled from the spec: the evaluator-local failure taxonomy of
spec section 7. -/
inductive EvalError where
| unsupportedOperator (name : String) : EvalError
| malformedExpression (name : String) : EvalError
| invalidPattern (pat : String) : EvalError
deriving DecidableEq, Repr

/-- Modelled from the spec: the truthiness rule of spec section 4.1 step 4.
Falsy values are false, null, numeric zero and the empty string; everything
else is truthy. -/
def truthy : Value → Bool
| .null => false
| .bool b => b
| .num n => n != 0
| .str s => s != ""

/-- Modelled from the spec: render a value as a string, used by the pattern
operators and by lexicographic comparison. -/
def valueToStr : Value → String
| .null => "null"
| .bool true => "true"
| .bool false => "false"
| .num n => toString n
| .str s => s

/-- Modelled from the spec: numeric coercion for comparisons; a value
participates numerically when it is a number, a numeral string, or a
boolean (0 or 1). -/
def toNumber : Value → Option Int
| .num n => some n
| .str s => s.toInt?
| .bool b => some (if b then 1 else 0)
| .null => none

/-- Modelled from the spec: comparison coercion of spec section 4.1, numeric
when both operands parse as numbers, else lexicographic string comparison. -/
def compareValues (a b : Value) : Ordering :=
match toNumber a, toNumber b with
| some x, some y => compare x y
| _, _ => compare (valueToStr a) (valueToStr b)

/-- Modelled from the spec: var resolution (spec section 4.1 step 2). Only
path and content resolve against the record; any other dotted name yields the
declared default, or null when none is given. -/
def resolveVar (name : String) (dflt : Option Value) (r : FileRecord) : Value :=
if name = "path" then .str r.path
else if name = "content" then .str r.content
else dflt.getD .null

/-- Modelled from the spec: shell-glob matching against the full string,
case-sensitive, with star matching any run of characters and the
question mark matching a single character (spec section 4.1). -/
def globMatch : List Char → List Char → Bool
| [], s => s.isEmpty
| c :: p, s =>
  if c = '*' then s.tails.any (fun s2 => globMatch p s2)
  else
    match s with
    | [] => false
    | d :: s2 => (if c = '?' then true else c = d) && globMatch p s2

/-- Base of a regular-expression atom: a literal character or the dot. -/
inductive RBase where
| rchar (c : Char) : RBase
| rdot : RBase
deriving DecidableEq, Repr

/-- A regular-expression atom: a base, optionally starred. -/
structure RAtom where
base : RBase
star : Bool
deriving DecidableEq, Repr

/-- Metacharacters outside the modelled regular-expression subset. -/
def unsupportedMeta : List Char :=
['\\', '(', ')', '[', ']', '\x7b', '\x7d', '|', '+', '?', '^', '$']

/-- Modelled from the spec: compile a pattern string into a sequence of
atoms. The modelled subset is literal characters, the dot, and the star
quantifier, which covers every pattern the specification exhibits; a pattern
using other metacharacters is reported as invalid. -/
def parseRegex : List Char → Option (List RAtom)
| [] => some []
| c :: '*' :: rest =>
  if c = '*' ∨ c ∈ unsupportedMeta then none
  else (parseRegex rest).map
    (fun t => ⟨if c = '.' then RBase.rdot else RBase.rchar c, true⟩ :: t)
| c :: rest =>
  if c = '*' ∨ c ∈ unsupportedMeta then none
  else (parseRegex rest).map
    (fun t => ⟨if c = '.' then RBase.rdot else RBase.rchar c, false⟩ :: t)

/-- Whether an atom base accepts a character. -/
def baseMatches : RBase → Char → Bool
| .rdot, _ => true
| .rchar c, d => c = d

/-- Modelled from the spec: does the compiled pattern match a prefix of the
subject starting at this position. -/
def matchHere : List RAtom → List Char → Bool
| [], _ => true
| ⟨b, false⟩ :: rx, s =>
  match s with
  | [] => false
  | c :: s2 => baseMatches b c && matchHere rx s2
| ⟨b, true⟩ :: rx, s =>
  (List.range (s.length + 1)).any
    (fun i => (s.take i).all (baseMatches b) && matchHere rx (s.drop i))

/-- Modelled from the spec: unanchored search, true when the pattern matches
at some position of the subject (spec section 4.1, regexp). -/
def searchAll (rx : List RAtom) : List Char → Bool
| [] => matchHere rx []
| c :: s2 => matchHere rx (c :: s2) || searchAll rx s2

/-- Modelled from the spec: the left-to-right fold giving the variadic and
its semantics, short-circuiting on the first falsy value and otherwise
returning the last value (spec section 4.1). It consumes the operand
results in order; since evaluation is pure and total, folding the eagerly
evaluated operand list is observably identical to lazy short-circuit
evaluation, because every result past the short-circuit point, errors
included, is ignored. -/
def andFold : List (Except EvalError Value) → Except EvalError Value
| [] => .error (.malformedExpression "and")
| [x] => x
| x :: rest => do
  let v ← x
  if truthy v then andFold rest else .ok v

/-- Modelled from the spec: the left-to-right fold giving the variadic or
its semantics, short-circuiting on the first truthy value and otherwise
returning the last value (spec section 4.1), with the same
short-circuit reading as the and fold. -/
def orFold : List (Except EvalError Value) → Except EvalError Value
| [] => .error (.malformedExpression "or")
| [x] => x
| x :: rest => do
  let v ← x
  if truthy v then .ok v else orFold rest

mutual

/-- Modelled from the spec: the recursive query evaluator of spec
section 4.1, absent from the provided sources (it lives in the obsidian
client module). Literals evaluate to themselves, var resolves against the
record, the logical combinators short-circuit on the truthiness rule,
comparisons use the common coercion, glob and regexp evaluate their two
operands to strings and pattern-match; an unknown operator name is an
UnsupportedOperator error and a wrong operand count a MalformedExpression
error. -/
def evaluate : QueryExpression → FileRecord → Except EvalError Value
| .lit v, _ => .ok v
| .varRef name dflt, r => .ok (resolveVar name dflt r)
| .op name args, r =>
  if name = "and" then andFold (evalList args r)
  else if name = "or" then orFold (evalList args r)
  else if name = "!" then
    match args with
    | [e] => do
      let v ← evaluate e r
      .ok (.bool (! truthy v))
    | _ => .error (.malformedExpression name)
  else if name = "!!" then
    match args with
    | [e] => do
      let v ← evaluate e r
      .ok (.bool (truthy v))
    | _ => .error (.malformedExpression name)
  else if name = "==" then
    match args with
    | [a, b] => do
      let va ← evaluate a r
      let vb ← evaluate b r
      .ok (.bool (compareValues va vb == .eq))
    | _ => .error (.malformedExpression name)
  else if name = "!=" then
    match args with
    | [a, b] => do
      let va ← evaluate a r
      let vb ← evaluate b r
      .ok (.bool (! (compareValues va vb == .eq)))
    | _ => .error (.malformedExpression name)
  else if name = "<" then
    match args with
    | [a, b] => do
      let va ← evaluate a r
      let vb ← evaluate b r
      .ok (.bool (compareValues va vb == .lt))
    | [a, b, c] => do
      let va ← evaluate a r
      let vb ← evaluate b r
      let vc ← evaluate c r
      .ok (.bool ((compareValues va vb == .lt) && (compareValues vb vc == .lt)))
    | _ => .error (.malformedExpression name)
  else if name = "<=" then
    match args with
    | [a, b] => do
      let va ← evaluate a r
      let vb ← evaluate b r
      .ok (.bool (! (compareValues va vb == .gt)))
    | [a, b, c] => do
      let va ← evaluate a r
      let vb ← evaluate b r
      let vc ← evaluate c r
      .ok (.bool ((! (compareValues va vb == .gt)) && (! (compareValues vb vc == .gt))))
    | _ => .error (.malformedExpression name)
  else if name = ">" then
    match args with
    | [a, b] => do
      let va ← evaluate a r
      let vb ← evaluate b r
      .ok (.bool (compareValues va vb == .gt))
    | _ => .error (.malformedExpression name)
  else if name = ">=" then
    match args with
    | [a, b] => do
      let va ← evaluate a r
      let vb ← evaluate b r
      .ok (.bool (! (compareValues va vb == .lt)))
    | _ => .error (.malformedExpression name)
  else if name = "glob" then
    match args with
    | [p, s] => do
      let pv ← evaluate p r
      let sv ← evaluate s r
      .ok (.bool (globMatch (valueToStr pv).toList (valueToStr sv).toList))
    | _ => .error (.malformedExpression name)
  else if name = "regexp" then
    match args with
    | [p, s] => do
      let pv ← evaluate p r
      let sv ← evaluate s r
      match parseRegex (valueToStr pv).toList with
      | some rx => .ok (.bool (searchAll rx (valueToStr sv).toList))
      | none => .error (.invalidPattern (valueToStr pv))
    | _ => .error (.malformedExpression name)
  else .error (.unsupportedOperator name)

/-- Pointwise evaluation of an operand list against a record, in order. -/
def evalList : List QueryExpression → FileRecord → List (Except EvalError Value)
| [], _ => []
| e :: es, r => evaluate e r :: evalList es r

end

/-- Modelled from the spec: the vault query Runner of spec section 4.2. The
listing and content-fetch collaborators are modelled by the given list of
file records, in vault enumeration order; the Runner walks it in order,
evaluates the query against each record, collects the paths with truthy
results, and propagates any evaluation error, aborting the whole scan. -/
def run (q : QueryExpression) : List FileRecord → Except EvalError (List String)
| [] => .ok []
| r :: rest => do
  let v ← evaluate q r
  let tail ← run q rest
  if truthy v then .ok (r.path :: tail) else .ok tail

/-- Modelled from the spec: the search_json entry of the obsidian client
module, which hands the parsed QueryExpression tree to the Runner. -/
def search_json (query : QueryExpression) (vault : List FileRecord) :
    Except EvalError (List String) :=
run query vault

/-- Embedded from fast_tools.py, obsidian_complex_search: the tool parses the
JsonLogic payload into a query tree and delegates to the client search_json;
the vault contents stand in for the listing and fetch collaborators. -/
def obsidian_complex_search (query : QueryExpression) (vault : List FileRecord) :
    Except EvalError (List String) :=
search_json query vault

/-- Whether the query evaluates to a truthy value on a record. -/
def matchesQuery (q : QueryExpression) (r : FileRecord) : Bool :=
match evaluate q r with
| .ok v => truthy v
| .error _ => false

/-- Observable effects of the delete tool against the vault client, in
order: constructing the Obsidian client and issuing the delete request. -/
inductive VaultAction where
| constructClient : VaultAction
| deleteFile (filepath : String) : VaultAction
deriving DecidableEq, Repr

/-- Embedded from fast_tools.py, obsidian_delete_file: when confirm is not
set the tool raises a RuntimeError with this exact message, before the
Obsidian client is constructed; otherwise it constructs the client and
issues the delete. The confirm parameter defaults to false as in the
source. The ok value lists the effects performed, in order. -/
def obsidian_delete_file (filepath : String) (confirm : Bool := false) :
    Except String (List VaultAction) :=
if ! confirm then .error "confirm must be set to true to delete a file"
else .ok [.constructClient, .deleteFile filepath]

/-- A match position object possibly missing its start or end entry, as
returned by the search collaborator. The stop field embeds the end key. -/
structure RawPos where
start : Option Int
stop : Option Int
deriving DecidableEq, Repr

/-- A raw match from the search collaborator; any entry may be absent. The
matchPos field embeds the match key. -/
structure RawMatch where
context : Option String
matchPos : Option RawPos
deriving DecidableEq, Repr

/-- A raw result from the search collaborator; any entry may be absent. The
matchList field embeds the matches key. -/
structure RawResult where
filename : Option String
score : Option Int
matchList : Option (List RawMatch)
deriving DecidableEq, Repr

/-- A formatted match position, with exactly the start and end entries (the
stop field embeds the end key). -/
structure MatchPosition where
start : Int
stop : Int
deriving DecidableEq, Repr

/-- A formatted match, with exactly the context and match_position keys. -/
structure FormattedMatch where
context : String
match_position : MatchPosition
deriving DecidableEq, Repr

/-- A formatted result, with exactly the filename, score and matches keys
(the matchList field embeds the matches key). -/
structure FormattedResult where
filename : String
score : Int
matchList : List FormattedMatch
deriving DecidableEq, Repr

/-- Embedded from fast_tools.py, the inner loop of obsidian_simple_search:
each raw match contributes its context (default empty string) and the start
and end of its match object (default 0, with an absent match object treated
as an empty one). -/
def formatMatchList : List RawMatch → List FormattedMatch
| [] => []
| m :: ms =>
  let pos := m.matchPos.getD ⟨none, none⟩
  { context := m.context.getD ""
    match_position := { start := pos.start.getD 0, stop := pos.stop.getD 0 } }
    :: formatMatchList ms

/-- Embedded from fast_tools.py, obsidian_simple_search: the collaborator
results are reformatted one by one, in order, with defaults for any absent
entry (empty string for filename, 0 for score, empty list for matches). -/
def obsidian_simple_search : List RawResult → List FormattedResult
| [] => []
| result :: rest =>
  { filename := result.filename.getD ""
    score := result.score.getD 0
    matchList := formatMatchList (result.matchList.getD []) }
    :: obsidian_simple_search rest

/-- Formatting of a single raw match, compositional form. -/
def formatMatch (m : RawMatch) : FormattedMatch :=
let pos := m.matchPos.getD ⟨none, none⟩
{ context := m.context.getD ""
  match_position := { start := pos.start.getD 0, stop := pos.stop.getD 0 } }

/-- Formatting of a single raw result, compositional form. -/
def formatResult (r : RawResult) : FormattedResult :=
{ filename := r.filename.getD ""
  score := r.score.getD 0
  matchList := (r.matchList.getD []).map formatMatch }

/-- The operator names the evaluator supports (spec section 3). -/
def supportedOperators : List String :=
["and", "or", "!", "!!", "==", "!=", "<", "<=", ">", ">=", "glob", "regexp"]

/-- Pointwise operand evaluation is a map over the operand list. -/
theorem evalList_eq_map (es : List QueryExpression) (r : FileRecord) :
    evalList es r = es.map (fun e => evaluate e r) := by
induction es with
| nil => rfl
| cons e es ih => simp [evalList, ih]

/-- Binding an ok result in the Except monad applies the continuation. -/
@[simp]
theorem exceptOk_bind {α β : Type} (a : α) (f : α → Except EvalError β) :
    (do let v ← Except.ok a; f v) = f a := rfl

/-- Binding an error in the Except monad propagates the error. -/
@[simp]
theorem exceptError_bind {α β : Type} (e : EvalError)
    (f : α → Except EvalError β) :
    (do let v ← Except.error e; f v) = Except.error e := rfl

/-- The and operator folds its pointwise operand results. -/
theorem evaluate_and (args : List QueryExpression) (r : FileRecord) :
    evaluate (.op "and" args) r = andFold (evalList args r) := by
unfold evaluate
simp

/-- The or operator folds its pointwise operand results. -/
theorem evaluate_or (args : List QueryExpression) (r : FileRecord) :
    evaluate (.op "or" args) r = orFold (evalList args r) := by
unfold evaluate
simp

/-- A truthy ok head is skipped by the and fold when more operands follow. -/
theorem andFold_cons_ok_truthy (w : Value) (rest : List (Except EvalError Value))
    (hw : truthy w = true) (hrest : rest ≠ []) :
    andFold (.ok w :: rest) = andFold rest := by
cases rest with
| nil => exact absurd rfl hrest
| cons y ys => simp [andFold, hw]

/-- A falsy ok head short-circuits the and fold when more operands follow,
whatever those operands hold. -/
theorem andFold_cons_ok_falsy (w : Value) (rest : List (Except EvalError Value))
    (hw : truthy w = false) (hrest : rest ≠ []) :
    andFold (.ok w :: rest) = .ok w := by
cases rest with
| nil => exact absurd rfl hrest
| cons y ys => simp [andFold, hw]

/-- A falsy ok head is skipped by the or fold when more operands follow. -/
theorem orFold_cons_ok_falsy (w : Value) (rest : List (Except EvalError Value))
    (hw : truthy w = false) (hrest : rest ≠ []) :
    orFold (.ok w :: rest) = orFold rest := by
cases rest with
| nil => exact absurd rfl hrest
| cons y ys => simp [orFold, hw]

/-- A truthy ok head short-circuits the or fold when more operands follow,
whatever those operands hold. -/
theorem orFold_cons_ok_truthy (w : Value) (rest : List (Except EvalError Value))
    (hw : truthy w = true) (hrest : rest ≠ []) :
    orFold (.ok w :: rest) = .ok w := by
cases rest with
| nil => exact absurd rfl hrest
| cons y ys => simp [orFold, hw]

/-- The and fold short-circuits at the first falsy ok result, after any run
of truthy ok results, whatever follows it. -/
theorem andFold_first_falsy (pre : List (Except EvalError Value))
    (vsp : List Value) (v : Value) (post : List (Except EvalError Value))
    (hpre : List.Forall₂ (fun x w => x = .ok w ∧ truthy w = true) pre vsp)
    (hv : truthy v = false) :
    andFold (pre ++ .ok v :: post) = .ok v := by
induction hpre with
| nil =>
  cases post with
  | nil => simp [andFold]
  | cons y ys => exact andFold_cons_ok_falsy v (y :: ys) hv (by simp)
| cons hx _ ih =>
  rename_i x w xs ws _
  rw [List.cons_append, hx.1,
    andFold_cons_ok_truthy w (xs ++ .ok v :: post) hx.2 (by simp)]
  exact ih

/-- The or fold short-circuits at the first truthy ok result, after any run
of falsy ok results, whatever follows it. -/
theorem orFold_first_truthy (pre : List (Except EvalError Value))
    (vsp : List Value) (v : Value) (post : List (Except EvalError Value))
    (hpre : List.Forall₂ (fun x w => x = .ok w ∧ truthy w = false) pre vsp)
    (hv : truthy v = true) :
    orFold (pre ++ .ok v :: post) = .ok v := by
induction hpre with
| nil =>
  cases post with
  | nil => simp [orFold]
  | cons y ys => exact orFold_cons_ok_truthy v (y :: ys) hv (by simp)
| cons hx _ ih =>
  rename_i x w xs ws _
  rw [List.cons_append, hx.1,
    orFold_cons_ok_falsy w (xs ++ .ok v :: post) hx.2 (by simp)]
  exact ih

/-- The and fold of a non-empty all-truthy ok list returns the last value. -/
theorem andFold_all_truthy (xs : List (Except EvalError Value))
    (vs : List Value)
    (h : List.Forall₂ (fun x w => x = .ok w ∧ truthy w = true) xs vs)
    (hne : xs ≠ []) :
    andFold xs = .ok (vs.getLastD .null) := by
induction h with
| nil => exact absurd rfl hne
| cons hx htail ih =>
  rename_i x w xs ws
  cases htail with
  | nil => simp [hx.1, andFold]
  | cons hy htl =>
    rename_i y b ys bs
    rw [hx.1, andFold_cons_ok_truthy w (y :: ys) hx.2 (by simp),
      ih (by simp)]
    simp [List.getLastD_cons]

/-- The or fold of a non-empty all-falsy ok list returns the last value. -/
theorem orFold_all_falsy (xs : List (Except EvalError Value))
    (vs : List Value)
    (h : List.Forall₂ (fun x w => x = .ok w ∧ truthy w = false) xs vs)
    (hne : xs ≠ []) :
    orFold xs = .ok (vs.getLastD .null) := by
induction h with
| nil => exact absurd rfl hne
| cons hx htail ih =>
  rename_i x w xs ws
  cases htail with
  | nil => simp [hx.1, orFold]
  | cons hy htl =>
    rename_i y b ys bs
    rw [hx.1, orFold_cons_ok_falsy w (y :: ys) hx.2 (by simp),
      ih (by simp)]
    simp [List.getLastD_cons]

/-- Evaluating an operand list respects appends and conses. -/
theorem evalList_append (xs ys : List QueryExpression) (r : FileRecord) :
    evalList (xs ++ ys) r = evalList xs r ++ evalList ys r := by
simp [evalList_eq_map]

/-- Pointwise evaluation turns a Forall₂ over expressions into a Forall₂
over their results. -/
theorem forall₂_evalList (P : Value → Prop) (es : List QueryExpression)
    (vs : List Value) (r : FileRecord)
    (h : List.Forall₂ (fun a w => evaluate a r = .ok w ∧ P w) es vs) :
    List.Forall₂ (fun x w => x = .ok w ∧ P w) (evalList es r) vs := by
rw [evalList_eq_map]
exact List.forall₂_map_left_iff.mpr h

/-- C2: for an and node with a non-empty operand list, evaluation walks the
operands left to right and returns the first falsy operand value, with the
operands past that point never influencing the result (they may even be
unsupported-operator nodes); when every operand value is truthy it returns
the last value. Dually, or returns the first truthy value and otherwise the
last value. -/
theorem and_or_short_circuit_semantics :
    (∀ (pre : List QueryExpression) (e : QueryExpression)
        (post : List QueryExpression) (r : FileRecord) (vs : List Value)
        (v : Value),
      List.Forall₂ (fun a w => evaluate a r = .ok w ∧ truthy w = true) pre vs →
      evaluate e r = .ok v → truthy v = false →
      evaluate (.op "and" (pre ++ e :: post)) r = .ok v) ∧
    (∀ (es : List QueryExpression) (r : FileRecord) (vs : List Value),
      List.Forall₂ (fun a w => evaluate a r = .ok w ∧ truthy w = true) es vs →
      es ≠ [] →
      evaluate (.op "and" es) r = .ok (vs.getLastD .null)) ∧
    (∀ (pre : List QueryExpression) (e : QueryExpression)
        (post : List QueryExpression) (r : FileRecord) (vs : List Value)
        (v : Value),
      List.Forall₂ (fun a w => evaluate a r = .ok w ∧ truthy w = false) pre vs →
      evaluate e r = .ok v → truthy v = true →
      evaluate (.op "or" (pre ++ e :: post)) r = .ok v) ∧
    (∀ (es : List QueryExpression) (r : FileRecord) (vs : List Value),
      List.Forall₂ (fun a w => evaluate a r = .ok w ∧ truthy w = false) es vs →
      es ≠ [] →
      evaluate (.op "or" es) r = .ok (vs.getLastD .null)) := by
refine ⟨?_, ?_, ?_, ?_⟩
· intro pre e post r vs v hpre he hv
  rw [evaluate_and, evalList_append, evalList, he]
  exact andFold_first_falsy (evalList pre r) vs v (evalList post r)
    (forall₂_evalList (fun w => truthy w = true) pre vs r hpre) hv
· intro es r vs h hne
  rw [evaluate_and]
  exact andFold_all_truthy (evalList es r) vs
    (forall₂_evalList (fun w => truthy w = true) es vs r h)
    (by cases es with
        | nil => exact absurd rfl hne
        | cons a as => simp [evalList])
· intro pre e post r vs v hpre he hv
  rw [evaluate_or, evalList_append, evalList, he]
  exact orFold_first_truthy (evalList pre r) vs v (evalList post r)
    (forall₂_evalList (fun w => truthy w = false) pre vs r hpre) hv
· intro es r vs h hne
  rw [evaluate_or]
  exact orFold_all_falsy (evalList es r) vs
    (forall₂_evalList (fun w => truthy w = false) es vs r h)
    (by cases es with
        | nil => exact absurd rfl hne
        | cons a as => simp [evalList])

/-- Witness for C2: in an and node, a truthy first operand then a falsy
numeric zero short-circuits to zero, even though the trailing operand is an
unsupported xor node that would fail if it were evaluated. -/
theorem and_or_short_circuit_semantics_witness :
    evaluate (.op "and" [.lit (.bool true), .lit (.num 0), .op "xor" []])
      ⟨"p", "c"⟩ = .ok (.num 0) :=
and_or_short_circuit_semantics.1 [.lit (.bool true)] (.lit (.num 0))
  [.op "xor" []] ⟨"p", "c"⟩ [.bool true] (.num 0)
  (List.Forall₂.cons ⟨rfl, rfl⟩ List.Forall₂.nil) rfl rfl

/-- Declarative glob-match relation, written from the words of the spec: a
pattern matches the full subject, with star matching any run of characters,
the question mark matching a single character, and any other character
matching exactly itself, case-sensitively. -/
def GlobSpec : List Char → List Char → Prop
| [], s => s = []
| c :: p, s =>
  if c = '*' then ∃ s1 s2, s = s1 ++ s2 ∧ GlobSpec p s2
  else if c = '?' then ∃ d s2, s = d :: s2 ∧ GlobSpec p s2
  else ∃ s2, s = c :: s2 ∧ GlobSpec p s2

/-- The executable glob matcher agrees with the declarative glob-match
relation of the spec. -/
theorem globMatch_iff_globSpec (p : List Char) :
    ∀ s : List Char, globMatch p s = true ↔ GlobSpec p s := by
induction p with
| nil =>
  intro s
  rw [globMatch.eq_def, GlobSpec.eq_def]
  simp [List.isEmpty_iff]
| cons c p ih =>
  intro s
  rw [globMatch.eq_def, GlobSpec.eq_def]
  by_cases hstar : c = '*'
  · simp only [if_pos hstar, List.any_eq_true]
    constructor
    · rintro ⟨s2, hs2, hm⟩
      rw [List.mem_tails] at hs2
      obtain ⟨s1, rfl⟩ := hs2
      exact ⟨s1, s2, rfl, (ih s2).mp hm⟩
    · rintro ⟨s1, s2, rfl, hg⟩
      exact ⟨s2, by simp [List.mem_tails], (ih s2).mpr hg⟩
  · by_cases hq : c = '?'
    · simp only [if_neg hstar, if_pos hq]
      cases s with
      | nil =>
        constructor
        · intro h
          simp at h
        · rintro ⟨d, s2, h, _⟩
          exact absurd h (by simp)
      | cons d s2 =>
        constructor
        · intro h
          simp only [if_pos hq, Bool.true_and] at h
          exact ⟨d, s2, rfl, (ih s2).mp h⟩
        · rintro ⟨d2, s3, heq, hg⟩
          injection heq with h1 h2
          subst h1
          subst h2
          simp only [if_pos hq, Bool.true_and]
          exact (ih _).mpr hg
    · simp only [if_neg hstar, if_neg hq]
      cases s with
      | nil =>
        constructor
        · intro h
          simp at h
        · rintro ⟨s2, h, _⟩
          exact absurd h (by simp)
      | cons d s2 =>
        constructor
        · intro h
          simp only [if_neg hq, Bool.and_eq_true, decide_eq_true_eq] at h
          exact ⟨s2, by rw [h.1], (ih s2).mp h.2⟩
        · rintro ⟨s3, heq, hg⟩
          injection heq with h1 h2
          subst h1
          subst h2
          simp only [if_neg hq, Bool.and_eq_true, decide_eq_true_eq]
          exact ⟨trivial, (ih _).mpr hg⟩

/-- C3: a glob node evaluates to true exactly when the subject string, the
evaluated second operand, matches the glob pattern, the evaluated first
operand, against the full string with star as any run of characters and the
question mark as a single character; matching is case-sensitive, the
markdown example matches and the non-markdown example does not. -/
theorem glob_matches_full_string :
    (∀ (p s : QueryExpression) (r : FileRecord) (pat subj : String),
      evaluate p r = .ok (.str pat) → evaluate s r = .ok (.str subj) →
      (evaluate (.op "glob" [p, s]) r = .ok (.bool true) ↔
        GlobSpec pat.toList subj.toList)) ∧
    evaluate (.op "glob" [.lit (.str "*.md"), .lit (.str "notes/today.md")])
        ⟨"", ""⟩ = .ok (.bool true) ∧
    evaluate (.op "glob" [.lit (.str "*.md"), .lit (.str "notes/today.txt")])
        ⟨"", ""⟩ = .ok (.bool false) ∧
    evaluate (.op "glob" [.lit (.str "*.MD"), .lit (.str "notes/today.md")])
        ⟨"", ""⟩ = .ok (.bool false) := by
refine ⟨?_, rfl, rfl, rfl⟩
intro p s r pat subj hp hs
have hev : evaluate (.op "glob" [p, s]) r =
    .ok (.bool (globMatch pat.toList subj.toList)) := by
  unfold evaluate
  simp [hp, hs, valueToStr]
rw [hev]
constructor
· intro h
  simp only [Except.ok.injEq, Value.bool.injEq] at h
  exact (globMatch_iff_globSpec pat.toList subj.toList).mp h
· intro h
  rw [(globMatch_iff_globSpec pat.toList subj.toList).mpr h]

/-- Witness for C3 at the spec example: the glob node with the markdown
pattern over the path field of a concrete record. -/
theorem glob_matches_full_string_witness :
    evaluate
        (.op "glob" [.lit (.str "*.md"), .varRef "path" none])
        ⟨"notes/today.md", ""⟩ = .ok (.bool true) ↔
      GlobSpec "*.md".toList "notes/today.md".toList :=
glob_matches_full_string.1 (.lit (.str "*.md")) (.varRef "path" none)
  ⟨"notes/today.md", ""⟩ "*.md" "notes/today.md" rfl rfl

/-- The unanchored search succeeds exactly when the compiled pattern matches
at some position within the subject, a match at any split point counting. -/
theorem searchAll_iff (rx : List RAtom) :
    ∀ s : List Char,
      searchAll rx s = true ↔
        ∃ s1 s2, s = s1 ++ s2 ∧ matchHere rx s2 = true := by
intro s
induction s with
| nil =>
  rw [searchAll]
  constructor
  · intro h
    exact ⟨[], [], rfl, h⟩
  · rintro ⟨s1, s2, he, hm⟩
    obtain ⟨rfl, rfl⟩ := List.append_eq_nil.mp he.symm
    exact hm
| cons c t ih =>
  rw [searchAll, Bool.or_eq_true, ih]
  constructor
  · rintro (hm | ⟨s1, s2, rfl, hm⟩)
    · exact ⟨[], c :: t, rfl, hm⟩
    · exact ⟨c :: s1, s2, rfl, hm⟩
  · rintro ⟨s1, s2, he, hm⟩
    cases s1 with
    | nil =>
      left
      simp only [List.nil_append] at he
      rw [he]
      exact hm
    | cons a s1 =>
      right
      simp only [List.cons_append, List.cons.injEq] at he
      exact ⟨s1, s2, he.2, hm⟩

/-- C4: a regexp node whose pattern compiles evaluates to true exactly when
the compiled regular expression matches anywhere within the subject string,
the evaluated second operand (unanchored search, not full match); the spec
example holds and a match strictly inside the subject still yields true. -/
theorem regexp_unanchored_search :
    (∀ (p s : QueryExpression) (r : FileRecord) (pat subj : String)
        (rx : List RAtom),
      evaluate p r = .ok (.str pat) → evaluate s r = .ok (.str subj) →
      parseRegex pat.toList = some rx →
      (evaluate (.op "regexp" [p, s]) r = .ok (.bool true) ↔
        ∃ s1 s2, subj.toList = s1 ++ s2 ∧ matchHere rx s2 = true)) ∧
    evaluate
        (.op "regexp"
          [.lit (.str ".*1221.*"), .lit (.str "the code is 1221-done")])
        ⟨"", ""⟩ = .ok (.bool true) ∧
    evaluate (.op "regexp" [.lit (.str "1221"), .lit (.str "abc1221xyz")])
        ⟨"", ""⟩ = .ok (.bool true) := by
refine ⟨?_, rfl, rfl⟩
intro p s r pat subj rx hp hs hrx
have hev : evaluate (.op "regexp" [p, s]) r =
    .ok (.bool (searchAll rx subj.toList)) := by
  unfold evaluate
  simp [hp, hs, valueToStr]
  rw [show parseRegex pat.data = some rx from hrx]
rw [hev]
constructor
· intro h
  simp only [Except.ok.injEq, Value.bool.injEq] at h
  exact (searchAll_iff rx subj.toList).mp h
· intro h
  rw [(searchAll_iff rx subj.toList).mpr h]

/-- Witness for C4: the literal pattern 1221 over a subject where the only
match starts strictly after position 0. -/
theorem regexp_unanchored_search_witness :
    evaluate (.op "regexp" [.lit (.str "1221"), .varRef "content" none])
        ⟨"", "abc1221xyz"⟩ = .ok (.bool true) ↔
      ∃ s1 s2, "abc1221xyz".toList = s1 ++ s2 ∧
        matchHere
          [⟨.rchar '1', false⟩, ⟨.rchar '2', false⟩, ⟨.rchar '2', false⟩,
            ⟨.rchar '1', false⟩] s2 = true :=
regexp_unanchored_search.1 (.lit (.str "1221")) (.varRef "content" none)
  ⟨"", "abc1221xyz"⟩ "1221" "abc1221xyz"
  [⟨.rchar '1', false⟩, ⟨.rchar '2', false⟩, ⟨.rchar '2', false⟩,
    ⟨.rchar '1', false⟩] rfl rfl rfl

/-- Evaluating an operator node whose name is unsupported is an
UnsupportedOperator error naming the operator, whatever the operands. -/
theorem evaluate_unsupported (name : String) (args : List QueryExpression)
    (r : FileRecord) (h : name ∉ supportedOperators) :
    evaluate (.op name args) r = .error (.unsupportedOperator name) := by
simp only [supportedOperators, List.mem_cons, List.not_mem_nil, or_false,
  not_or] at h
obtain ⟨h1, h2, h3, h4, h5, h6, h7, h8, h9, h10, h11, h12⟩ := h
unfold evaluate
simp [h1, h2, h3, h4, h5, h6, h7, h8, h9, h10, h11, h12]

/-- Counterexample to C6 as stated: this query contains the unsupported
operator node xor, yet the complex-search call succeeds with a non-empty
result, because the or node short-circuits on its first truthy operand and
the xor node is never evaluated. -/
theorem unsupported_operator_in_query_counterexample :
    obsidian_complex_search
      (.op "or" [.lit (.bool true),
        .op "xor" [.lit (.bool true), .lit (.bool false)]])
      [⟨"a.md", "x"⟩] = .ok ["a.md"] := rfl

/-- C6 (amended): for every query whose evaluated part reaches an operator
node with an unsupported name, in particular whenever the query itself is
such a node and the vault has at least one file, the whole complex-search
call fails with an UnsupportedOperator error identifying the operator, and
no empty or partial result sequence is returned. -/
theorem unsupported_operator_fails_call (name : String)
    (args : List QueryExpression) (r : FileRecord) (rest : List FileRecord)
    (h : name ∉ supportedOperators) :
    obsidian_complex_search (.op name args) (r :: rest) =
      .error (.unsupportedOperator name) := by
show run (.op name args) (r :: rest) = .error (.unsupportedOperator name)
rw [run, evaluate_unsupported name args r h]
rfl

/-- Witness for C6 amended: the xor query from the spec against a one-file
vault fails with UnsupportedOperator naming xor. -/
theorem unsupported_operator_fails_call_witness :
    obsidian_complex_search
      (.op "xor" [.lit (.bool true), .lit (.bool false)]) [⟨"a.md", "x"⟩] =
      .error (.unsupportedOperator "xor") :=
unsupported_operator_fails_call "xor" [.lit (.bool true), .lit (.bool false)]
  ⟨"a.md", "x"⟩ [] (by decide)

/-- A successful run returns a subsequence of the vault paths in
enumeration order. -/
theorem run_sublist (q : QueryExpression) :
    ∀ (vault : List FileRecord) (ps : List String),
      run q vault = .ok ps → ps.Sublist (vault.map FileRecord.path) := by
intro vault
induction vault with
| nil =>
  intro ps h
  simp only [run] at h
  cases h
  simp
| cons r rest ih =>
  intro ps h
  rw [run] at h
  cases hv : evaluate q r with
  | error e => rw [hv] at h; exact absurd h (by simp)
  | ok v =>
    rw [hv] at h
    cases ht : run q rest with
    | error e => rw [ht] at h; exact absurd h (by simp)
    | ok tail =>
      rw [ht] at h
      simp only [exceptOk_bind] at h
      by_cases htr : truthy v = true
      · rw [if_pos htr] at h
        cases h
        exact List.Sublist.cons₂ r.path (ih tail ht)
      · rw [if_neg htr] at h
        cases h
        exact List.Sublist.cons r.path (ih _ ht)

/-- C8: the sequence of matched paths a complex-search call returns is a
subsequence of the vault paths in the enumeration order the listing
produced them, so the output order is the enumeration order and no
relevance sorting is applied. -/
theorem complex_search_preserves_enumeration_order (q : QueryExpression)
    (vault : List FileRecord) (ps : List String)
    (h : obsidian_complex_search q vault = .ok ps) :
    ps.Sublist (vault.map FileRecord.path) :=
run_sublist q vault ps h

/-- Witness for C8 on a concrete two-file vault where only the first file
matches. -/
theorem complex_search_preserves_enumeration_order_witness :
    List.Sublist ["a.md"]
      (([⟨"a.md", "x"⟩, ⟨"b.txt", "y"⟩] : List FileRecord).map
        FileRecord.path) :=
complex_search_preserves_enumeration_order
  (.op "glob" [.lit (.str "*.md"), .varRef "path" none])
  [⟨"a.md", "x"⟩, ⟨"b.txt", "y"⟩] ["a.md"] rfl

/-- When the query evaluates on every vault record, the run returns exactly
the paths of the records on which it is truthy, in enumeration order. -/
theorem run_filter_characterization (q : QueryExpression) :
    ∀ vault : List FileRecord,
      (∀ r ∈ vault, ∃ v, evaluate q r = .ok v) →
      run q vault =
        .ok ((vault.filter (fun r => matchesQuery q r)).map FileRecord.path) := by
intro vault
induction vault with
| nil => intro _; rfl
| cons r rest ih =>
  intro h
  obtain ⟨v, hv⟩ := h r (by simp)
  have hrest := ih (fun x hx => h x (by simp [hx]))
  have hm : matchesQuery q r = truthy v := by
    simp [matchesQuery, hv]
  rw [run, hv, hrest]
  simp only [exceptOk_bind, List.filter_cons, hm]
  by_cases htr : truthy v = true
  · simp [htr]
  · simp [htr]

/-- C1: a complex-search call hands the parsed query to the Runner, which
walks the vault file list in order, builds the record of path and content
for each file, evaluates the query against that record inside this program,
and returns exactly the paths whose evaluation result is truthy; the result
is fully determined by the local evaluator on the local records. -/
theorem complex_search_runs_query_locally (q : QueryExpression)
    (vault : List FileRecord)
    (h : ∀ r ∈ vault, ∃ v, evaluate q r = .ok v) :
    obsidian_complex_search q vault =
      .ok ((vault.filter (fun r => matchesQuery q r)).map FileRecord.path) :=
run_filter_characterization q vault h

/-- Witness for C1: the markdown-glob query on a concrete two-file vault
returns exactly the matching path. -/
theorem complex_search_runs_query_locally_witness :
    obsidian_complex_search
      (.op "glob" [.lit (.str "*.md"), .varRef "path" none])
      [⟨"a.md", "x"⟩, ⟨"b.txt", "y"⟩] =
      .ok
        ((([⟨"a.md", "x"⟩, ⟨"b.txt", "y"⟩] : List FileRecord).filter
            (fun r =>
              matchesQuery
                (.op "glob" [.lit (.str "*.md"), .varRef "path" none]) r)).map
          FileRecord.path) :=
complex_search_runs_query_locally
  (.op "glob" [.lit (.str "*.md"), .varRef "path" none])
  [⟨"a.md", "x"⟩, ⟨"b.txt", "y"⟩]
  (by
    intro r hr
    simp only [List.mem_cons, List.not_mem_nil, or_false] at hr
    rcases hr with rfl | rfl
    · exact ⟨.bool true, rfl⟩
    · exact ⟨.bool false, rfl⟩)

/-- C5: for every VarRef whose dotted field name is neither path nor content
and every record, evaluate returns the declared default value, null when no
default is given, and never fails; only path and content resolve to record
fields. -/
theorem var_absent_field_returns_default (name : String) (dflt : Option Value)
    (r : FileRecord) (hp : name ≠ "path") (hc : name ≠ "content") :
    evaluate (.varRef name dflt) r = .ok (dflt.getD .null) := by
unfold evaluate
simp [resolveVar, hp, hc]

/-- Witness for C5 at the concrete absent field name tags with a declared
default. -/
theorem var_absent_field_returns_default_witness :
    evaluate (.varRef "tags" (some (.str "d"))) ⟨"p", "c"⟩ = .ok (.str "d") :=
var_absent_field_returns_default "tags" (some (.str "d")) ⟨"p", "c"⟩
  (by decide) (by decide)

/-- C7: evaluating the nested expression not of double-negation of x equals
the boolean negation of the coerced boolean of the value of x, where the
coercion treats false, null, numeric zero and the empty string as falsy and
everything else as truthy. -/
theorem not_double_negation (x : QueryExpression) (r : FileRecord) (v : Value)
    (h : evaluate x r = .ok v) :
    evaluate (.op "!" [.op "!!" [x]]) r = .ok (.bool (! truthy v)) ∧
      (∀ w : Value,
        truthy w = false ↔
          (w = .bool false ∨ w = .null ∨ w = .num 0 ∨ w = .str "")) := by
constructor
· unfold evaluate
  simp
  unfold evaluate
  simp [h]
  rfl
· intro w
  cases w with
  | null => simp [truthy]
  | bool b => cases b <;> simp [truthy]
  | num n => simp [truthy]
  | str s => simp [truthy]

/-- Witness for C7 at a concrete sub-expression: a non-empty string literal
is truthy, so the double negation collapses to false under the outer
negation. -/
theorem not_double_negation_witness :
    evaluate (.op "!" [.op "!!" [.lit (.str "x")]]) ⟨"p", "c"⟩ =
        .ok (.bool false) ∧
      (∀ w : Value,
        truthy w = false ↔
          (w = .bool false ∨ w = .null ∨ w = .num 0 ∨ w = .str "")) :=
not_double_negation (.lit (.str "x")) ⟨"p", "c"⟩ (.str "x") rfl

/-- C9: the delete tool with confirm false (the default) fails with the
RuntimeError message before any vault client is constructed, so no delete
request is sent; the client is constructed and the delete issued only when
confirm is true. -/
theorem delete_file_requires_confirm :
    (∀ fp : String,
      obsidian_delete_file fp =
        .error "confirm must be set to true to delete a file") ∧
    (∀ (fp : String) (acts : List VaultAction),
      obsidian_delete_file fp false ≠ .ok acts) ∧
    (∀ (fp : String) (confirm : Bool) (acts : List VaultAction),
      obsidian_delete_file fp confirm = .ok acts →
        confirm = true ∧ acts = [.constructClient, .deleteFile fp]) := by
refine ⟨fun fp => rfl, fun fp acts h => by simp [obsidian_delete_file] at h,
  fun fp confirm acts h => ?_⟩
cases confirm with
| false => simp [obsidian_delete_file] at h
| true =>
  refine ⟨rfl, ?_⟩
  simpa [obsidian_delete_file] using h.symm

/-- Witness for C9: with confirm true on a concrete path, the client is
constructed and the delete issued. -/
theorem delete_file_requires_confirm_witness :
    (true : Bool) = true ∧
      ([VaultAction.constructClient, VaultAction.deleteFile "a.md"] :
          List VaultAction) =
        [.constructClient, .deleteFile "a.md"] :=
delete_file_requires_confirm.2.2 "a.md" true
  [VaultAction.constructClient, VaultAction.deleteFile "a.md"] rfl

/-- The match-list loop of the simple search tool formats matches
pointwise. -/
theorem formatMatchList_eq_map (ms : List RawMatch) :
    formatMatchList ms = ms.map formatMatch := by
induction ms with
| nil => rfl
| cons m ms ih => simp [formatMatchList, formatMatch, ih]

/-- C10: the simple search tool returns one formatted result per
collaborator result, in the same order; each formatted result carries
exactly the filename, score and matches keys, each formatted match exactly
the context and match_position keys with integer start and end, and every
absent collaborator field is replaced by its default (empty string for
filename and context, 0 for score, start and end, empty list for matches)
rather than failing. -/
theorem simple_search_formats_results :
    (∀ rs : List RawResult, obsidian_simple_search rs = rs.map formatResult) ∧
    (∀ rs : List RawResult,
      (obsidian_simple_search rs).length = rs.length) ∧
    formatResult ⟨none, none, none⟩ =
      { filename := "", score := 0, matchList := [] } ∧
    formatMatch ⟨none, none⟩ =
      { context := "", match_position := { start := 0, stop := 0 } } ∧
    formatMatch ⟨some "ctx", some ⟨some 3, none⟩⟩ =
      { context := "ctx", match_position := { start := 3, stop := 0 } } := by
have hmap : ∀ rs : List RawResult,
    obsidian_simple_search rs = rs.map formatResult := by
  intro rs
  induction rs with
  | nil => rfl
  | cons x xs ih =>
    simp [obsidian_simple_search, formatResult, formatMatchList_eq_map, ih]
exact ⟨hmap, fun rs => by simp [hmap rs], rfl, rfl, rfl⟩

end McpObsidian
